import Mathlib

/-!
Verification of the phyllotaxis-flower generator (`furry_bomb.py`).

The Python source builds a Blender mesh: `getTNBfromVector` derives a
tangent/normal/binormal frame from a direction vector, `draw_lsystem`
expands an L-system grammar and walks it with a turtle, and
`PhyllotaxisFlower.geometry` places flowers and petals on a paraboloid
using golden-angle spacing.  Floating-point arithmetic is modelled by
exact real arithmetic over `ℝ`; Blender's `bmesh` buffer is modelled as
lists of vertices and faces, with the fallibility of `bmesh.faces.new`
abstracted by an `accept` predicate on the proposed face (the Python
code catches the `ValueError` that call may raise).
-/

namespace FurryBomb

noncomputable section
open Real

/-- A 3-component real vector, modelling `mathutils.Vector`. -/
structure Vec3 where
  x : ℝ
  y : ℝ
  z : ℝ

instance : Zero Vec3 := ⟨⟨0, 0, 0⟩⟩
instance : Add Vec3 := ⟨fun a b => ⟨a.x + b.x, a.y + b.y, a.z + b.z⟩⟩
instance : Sub Vec3 := ⟨fun a b => ⟨a.x - b.x, a.y - b.y, a.z - b.z⟩⟩
instance : SMul ℝ Vec3 := ⟨fun c a => ⟨c * a.x, c * a.y, c * a.z⟩⟩

theorem Vec3.zero_def : (0 : Vec3) = ⟨0, 0, 0⟩ := rfl

theorem Vec3.add_def (a b : Vec3) : a + b = ⟨a.x + b.x, a.y + b.y, a.z + b.z⟩ := rfl

theorem Vec3.sub_def (a b : Vec3) : a - b = ⟨a.x - b.x, a.y - b.y, a.z - b.z⟩ := rfl

theorem Vec3.smul_def (c : ℝ) (a : Vec3) : c • a = ⟨c * a.x, c * a.y, c * a.z⟩ := rfl

theorem Vec3.ext_iff {a b : Vec3} : a = b ↔ a.x = b.x ∧ a.y = b.y ∧ a.z = b.z := by
  constructor
  · rintro rfl; exact ⟨rfl, rfl, rfl⟩
  · rcases a with ⟨ax, ay, az⟩; rcases b with ⟨bx, by_, bz⟩
    rintro ⟨h1, h2, h3⟩; simp_all

/-- Euclidean dot product (`mathutils.Vector.dot`). -/
def dot (a b : Vec3) : ℝ := a.x * b.x + a.y * b.y + a.z * b.z

/-- Cross product (`mathutils.Vector.cross`). -/
def cross (a b : Vec3) : Vec3 :=
  ⟨a.y * b.z - a.z * b.y, a.z * b.x - a.x * b.z, a.x * b.y - a.y * b.x⟩

/-- Squared Euclidean length. -/
def normSq (a : Vec3) : ℝ := dot a a

/-- Euclidean length (`mathutils.Vector.length`). -/
def len (a : Vec3) : ℝ := Real.sqrt (normSq a)

/-- Models `mathutils.Vector.normalized()`: divides by the length, and returns the
zero vector unchanged when the length is zero (no exception is raised). -/
def normalize (a : Vec3) : Vec3 := if len a = 0 then 0 else (1 / len a) • a

theorem normSq_nonneg (a : Vec3) : 0 ≤ normSq a := by
  rcases a with ⟨ax, ay, az⟩
  simp only [normSq, dot]
  nlinarith [mul_self_nonneg ax, mul_self_nonneg ay, mul_self_nonneg az]

theorem normSq_eq_zero_iff {a : Vec3} : normSq a = 0 ↔ a = 0 := by
  rcases a with ⟨ax, ay, az⟩
  simp only [normSq, dot, Vec3.zero_def, Vec3.ext_iff]
  constructor
  · intro h
    refine ⟨?_, ?_, ?_⟩ <;> nlinarith [sq_nonneg ax, sq_nonneg ay, sq_nonneg az]
  · rintro ⟨h1, h2, h3⟩; simp [h1, h2, h3]

theorem len_eq_zero_iff {a : Vec3} : len a = 0 ↔ a = 0 := by
  rw [len, Real.sqrt_eq_zero (normSq_nonneg a), normSq_eq_zero_iff]

theorem len_sq (a : Vec3) : len a * len a = normSq a :=
  Real.mul_self_sqrt (normSq_nonneg a)

theorem normSq_smul (c : ℝ) (a : Vec3) : normSq (c • a) = c ^ 2 * normSq a := by
  rcases a with ⟨ax, ay, az⟩
  simp only [normSq, dot, Vec3.smul_def]
  ring

theorem normSq_normalize {a : Vec3} (h : a ≠ 0) : normSq (normalize a) = 1 := by
  have hl : len a ≠ 0 := fun hl => h (len_eq_zero_iff.mp hl)
  rw [normalize, if_neg hl, normSq_smul]
  have h2 : len a * len a = normSq a := len_sq a
  field_simp
  nlinarith [h2]

theorem dot_normalize_left (a b : Vec3) (h : len a ≠ 0) :
    dot (normalize a) b = (1 / len a) * dot a b := by
  rw [normalize, if_neg h]
  rcases a with ⟨ax, ay, az⟩; rcases b with ⟨bx, by_, bz⟩
  simp only [dot, Vec3.smul_def]
  ring

theorem dot_self_cross (a b : Vec3) : dot a (cross a b) = 0 := by
  rcases a with ⟨ax, ay, az⟩; rcases b with ⟨bx, by_, bz⟩
  simp only [dot, cross]
  ring

theorem dot_cross_left_self (a b : Vec3) : dot (cross a b) a = 0 := by
  rcases a with ⟨ax, ay, az⟩; rcases b with ⟨bx, by_, bz⟩
  simp only [dot, cross]
  ring

theorem dot_cross_right_self (a b : Vec3) : dot (cross a b) b = 0 := by
  rcases a with ⟨ax, ay, az⟩; rcases b with ⟨bx, by_, bz⟩
  simp only [dot, cross]
  ring

/-- Lagrange identity for the cross product. -/
theorem normSq_cross (a b : Vec3) :
    normSq (cross a b) = normSq a * normSq b - (dot a b) ^ 2 := by
  rcases a with ⟨ax, ay, az⟩; rcases b with ⟨bx, by_, bz⟩
  simp only [normSq, dot, cross]
  ring

theorem normSq_zero : normSq 0 = 0 := by
  simp [normSq, dot, Vec3.zero_def]

theorem len_zero : len 0 = 0 := by
  rw [len, normSq_zero, Real.sqrt_zero]

theorem normalize_zero : normalize 0 = 0 := by
  rw [normalize, if_pos len_zero]

theorem dot_smul_right (c : ℝ) (a b : Vec3) : dot a (c • b) = c * dot a b := by
  rcases a with ⟨ax, ay, az⟩; rcases b with ⟨bx, by_, bz⟩
  simp only [dot, Vec3.smul_def]
  ring

theorem dot_normalize_right (a b : Vec3) (h : len b ≠ 0) :
    dot a (normalize b) = (1 / len b) * dot a b := by
  rw [normalize, if_neg h, dot_smul_right]

/-- Source function `getTNBfromVector`: normalizes the input to `N`, takes
`B = N × (0,0,-1)`, and if that cross product has length zero falls back to
the fixed frame `T=(0,1,0)`, `B=(1,0,0)`; otherwise normalizes `B` and sets
`T = normalize(N × B)`.  Returns `(T, N, B)`. -/
def getTNBfromVector (v : Vec3) : Vec3 × Vec3 × Vec3 :=
  let N := normalize v
  let B := cross N ⟨0, 0, -1⟩
  if len B = 0 then
    (⟨0, 1, 0⟩, N, ⟨1, 0, 0⟩)
  else
    (normalize (cross N (normalize B)), N, normalize B)

theorem cross_with_down (N : Vec3) : cross N ⟨0, 0, -1⟩ = ⟨-N.y, N.x, 0⟩ := by
  rcases N with ⟨nx, ny, nz⟩
  simp only [cross, Vec3.ext_iff]
  refine ⟨by ring, by ring, by ring⟩

/-- C6: for every non-zero direction `v` that is not anti-parallel to
`(0,0,-1)`, `getTNBfromVector v` returns `T`, `N`, `B` each of (exactly)
unit length and pairwise orthogonal (dot products exactly `0`), with
`N = normalize v`. -/
theorem getTNB_orthonormal (v : Vec3) (hv : v ≠ 0)
    (hanti : ¬(v.x = 0 ∧ v.y = 0 ∧ 0 < v.z)) :
    normSq (getTNBfromVector v).1 = 1 ∧
    normSq (getTNBfromVector v).2.1 = 1 ∧
    normSq (getTNBfromVector v).2.2 = 1 ∧
    dot (getTNBfromVector v).1 (getTNBfromVector v).2.1 = 0 ∧
    dot (getTNBfromVector v).1 (getTNBfromVector v).2.2 = 0 ∧
    dot (getTNBfromVector v).2.1 (getTNBfromVector v).2.2 = 0 ∧
    (getTNBfromVector v).2.1 = normalize v := by
  have hvl : len v ≠ 0 := fun h => hv (len_eq_zero_iff.mp h)
  have hN1 : normSq (normalize v) = 1 := normSq_normalize hv
  by_cases hB : len (cross (normalize v) ⟨0, 0, -1⟩) = 0
  · -- degenerate branch: the fallback frame is returned
    have hB0 : cross (normalize v) ⟨0, 0, -1⟩ = 0 := len_eq_zero_iff.mp hB
    have hxy : (normalize v).x = 0 ∧ (normalize v).y = 0 := by
      rw [cross_with_down, Vec3.zero_def, Vec3.ext_iff] at hB0
      have hx : (normalize v).x = 0 := by simpa using hB0.2.1
      have hy : (normalize v).y = 0 := by
        have := hB0.1
        simp only at this
        linarith
      exact ⟨hx, hy⟩
    have hres : getTNBfromVector v = (⟨0, 1, 0⟩, normalize v, ⟨1, 0, 0⟩) := by
      rw [getTNBfromVector]
      simp only [if_pos hB]
    rw [hres]
    refine ⟨by simp [normSq, dot], hN1, by simp [normSq, dot], ?_, ?_, ?_, rfl⟩
    · show dot ⟨0, 1, 0⟩ (normalize v) = 0
      simp [dot, hxy.2]
    · simp [dot]
    · show dot (normalize v) ⟨1, 0, 0⟩ = 0
      simp [dot, hxy.1]
  · -- generic branch
    have hB0ne : cross (normalize v) ⟨0, 0, -1⟩ ≠ 0 :=
      fun h => hB (by rw [h]; exact len_zero)
    have hBu1 : normSq (normalize (cross (normalize v) ⟨0, 0, -1⟩)) = 1 :=
      normSq_normalize hB0ne
    have hNBu : dot (normalize v) (normalize (cross (normalize v) ⟨0, 0, -1⟩)) = 0 := by
      rw [dot_normalize_right _ _ hB, dot_self_cross]
      ring
    have hC1 : normSq (cross (normalize v)
        (normalize (cross (normalize v) ⟨0, 0, -1⟩))) = 1 := by
      rw [normSq_cross, hN1, hBu1, hNBu]
      ring
    have hCne : cross (normalize v) (normalize (cross (normalize v) ⟨0, 0, -1⟩)) ≠ 0 := by
      intro h
      rw [h, normSq_zero] at hC1
      norm_num at hC1
    have hCl : len (cross (normalize v) (normalize (cross (normalize v) ⟨0, 0, -1⟩))) ≠ 0 :=
      fun h => hCne (len_eq_zero_iff.mp h)
    have hres : getTNBfromVector v =
        (normalize (cross (normalize v) (normalize (cross (normalize v) ⟨0, 0, -1⟩))),
         normalize v, normalize (cross (normalize v) ⟨0, 0, -1⟩)) := by
      rw [getTNBfromVector]
      simp only [if_neg hB]
    rw [hres]
    refine ⟨normSq_normalize hCne, hN1, hBu1, ?_, ?_, hNBu, rfl⟩
    · show dot (normalize _) (normalize v) = 0
      rw [dot_normalize_left _ _ hCl, dot_cross_left_self]
      ring
    · show dot (normalize _) (normalize _) = 0
      rw [dot_normalize_left _ _ hCl, dot_cross_right_self]
      ring

/-- Witness for C6 at the concrete direction `(1, 2, 2)`. -/
theorem getTNB_orthonormal_witness :
    ((⟨1, 2, 2⟩ : Vec3) ≠ 0 ∧
      ¬((⟨1, 2, 2⟩ : Vec3).x = 0 ∧ (⟨1, 2, 2⟩ : Vec3).y = 0 ∧ 0 < (⟨1, 2, 2⟩ : Vec3).z)) ∧
    (normSq (getTNBfromVector ⟨1, 2, 2⟩).1 = 1 ∧
     normSq (getTNBfromVector ⟨1, 2, 2⟩).2.1 = 1 ∧
     normSq (getTNBfromVector ⟨1, 2, 2⟩).2.2 = 1 ∧
     dot (getTNBfromVector ⟨1, 2, 2⟩).1 (getTNBfromVector ⟨1, 2, 2⟩).2.1 = 0 ∧
     dot (getTNBfromVector ⟨1, 2, 2⟩).1 (getTNBfromVector ⟨1, 2, 2⟩).2.2 = 0 ∧
     dot (getTNBfromVector ⟨1, 2, 2⟩).2.1 (getTNBfromVector ⟨1, 2, 2⟩).2.2 = 0 ∧
     (getTNBfromVector ⟨1, 2, 2⟩).2.1 = normalize ⟨1, 2, 2⟩) := by
  have h1 : (⟨1, 2, 2⟩ : Vec3) ≠ 0 := by
    intro h
    have := congrArg Vec3.x h
    rw [Vec3.zero_def] at this
    norm_num at this
  have h2 : ¬((⟨1, 2, 2⟩ : Vec3).x = 0 ∧ (⟨1, 2, 2⟩ : Vec3).y = 0 ∧
      0 < (⟨1, 2, 2⟩ : Vec3).z) := by
    intro h
    have := h.1
    norm_num at this
  exact ⟨⟨h1, h2⟩, getTNB_orthonormal ⟨1, 2, 2⟩ h1 h2⟩

/-- C7: for `v = (0, 0, k)` with `k < 0` (anti-parallel to `(0,0,1)`,
parallel to the reference axis `(0,0,-1)`), the degenerate fallback is
taken: `T = (0,1,0)`, `B = (1,0,0)`; moreover `N = (0,0,-1)`. -/
theorem getTNB_antiparallel_fallback (k : ℝ) (hk : k < 0) :
    (getTNBfromVector ⟨0, 0, k⟩).1 = ⟨0, 1, 0⟩ ∧
    (getTNBfromVector ⟨0, 0, k⟩).2.2 = ⟨1, 0, 0⟩ ∧
    (getTNBfromVector ⟨0, 0, k⟩).2.1 = ⟨0, 0, -1⟩ := by
  have hns : normSq (⟨0, 0, k⟩ : Vec3) = k ^ 2 := by
    simp only [normSq, dot]
    ring
  have hlen : len (⟨0, 0, k⟩ : Vec3) = -k := by
    rw [len, hns, Real.sqrt_sq_eq_abs, abs_of_neg hk]
  have hlne : len (⟨0, 0, k⟩ : Vec3) ≠ 0 := by
    rw [hlen]
    linarith
  have hN : normalize ⟨0, 0, k⟩ = ⟨0, 0, -1⟩ := by
    rw [normalize, if_neg hlne, hlen, Vec3.smul_def, Vec3.ext_iff]
    refine ⟨by norm_num, by norm_num, ?_⟩
    show 1 / -k * k = -1
    field_simp
    rw [div_neg, div_self hk.ne]
  have hcross : cross (normalize ⟨0, 0, k⟩) ⟨0, 0, -1⟩ = 0 := by
    rw [hN, cross_with_down, Vec3.zero_def]
    norm_num
  have hres : getTNBfromVector ⟨0, 0, k⟩ =
      (⟨0, 1, 0⟩, normalize ⟨0, 0, k⟩, ⟨1, 0, 0⟩) := by
    rw [getTNBfromVector]
    simp only [hcross, len_zero, if_pos]
  rw [hres]
  exact ⟨rfl, rfl, hN⟩

/-- Witness for C7 at `k = -1`. -/
theorem getTNB_antiparallel_fallback_witness :
    (-1 : ℝ) < 0 ∧
    ((getTNBfromVector ⟨0, 0, -1⟩).1 = ⟨0, 1, 0⟩ ∧
     (getTNBfromVector ⟨0, 0, -1⟩).2.2 = ⟨1, 0, 0⟩ ∧
     (getTNBfromVector ⟨0, 0, -1⟩).2.1 = ⟨0, 0, -1⟩) :=
  ⟨by norm_num, getTNB_antiparallel_fallback (-1) (by norm_num)⟩

/-- C10: on the zero vector the function returns without error:
normalization yields the zero vector, the cross product is zero, the
fallback branch is taken, and the result is exactly
`T = (0,1,0)`, `N = (0,0,0)` (not a unit vector), `B = (1,0,0)`. -/
theorem getTNB_zero_vector_fallback :
    getTNBfromVector ⟨0, 0, 0⟩ = (⟨0, 1, 0⟩, ⟨0, 0, 0⟩, ⟨1, 0, 0⟩) ∧
    normSq (getTNBfromVector ⟨0, 0, 0⟩).2.1 = 0 := by
  have h0 : (⟨0, 0, 0⟩ : Vec3) = 0 := rfl
  have hN : normalize ⟨0, 0, 0⟩ = 0 := by rw [h0, normalize_zero]
  have hcross : cross (normalize ⟨0, 0, 0⟩) ⟨0, 0, -1⟩ = 0 := by
    rw [hN, cross_with_down, Vec3.zero_def]
    norm_num
  have hres : getTNBfromVector ⟨0, 0, 0⟩ =
      (⟨0, 1, 0⟩, normalize ⟨0, 0, 0⟩, ⟨1, 0, 0⟩) := by
    rw [getTNBfromVector]
    simp only [hcross, len_zero, if_pos]
  rw [hres, hN]
  exact ⟨rfl, normSq_zero⟩

/-! ## The L-system expander and emitter (`draw_lsystem`) -/

/-- Degrees to radians, `math.radians`. -/
def rad (a : ℝ) : ℝ := a * Real.pi / 180

/-- Radians to degrees, `math.degrees`. -/
def degOf (a : ℝ) : ℝ := a * 180 / Real.pi

/-- Models `math.atan2 y x`, here as the argument of the complex number
`x + y·i` (both have range `(-π, π]` and agree everywhere, including
`atan2 0 0 = 0`). -/
def atan2 (y x : ℝ) : ℝ := Complex.arg ⟨x, y⟩

/-- One rewriting round of the L-system, mirroring the inner loop of
`draw_lsystem`: `next_string += rules.get(char, char)` — a simultaneous
substitution; symbols with no rule pass through unchanged. -/
def expandOnce (rules : Char → Option (List Char)) (s : List Char) : List Char :=
  s.foldl (fun acc c => acc ++ (rules c).getD [c]) []

/-- Performs `iterations` rewriting rounds, mirroring the outer `for _ in
range(iterations)` loop of `draw_lsystem`. -/
def expandN (rules : Char → Option (List Char)) : ℕ → List Char → List Char
  | 0, s => s
  | k + 1, s => expandN rules k (expandOnce rules s)

/-- Rotation about the world Z axis by `t` radians
(`Matrix.Rotation(t, 4, 'Z')` applied to a vector). -/
def rotZ (t : ℝ) (v : Vec3) : Vec3 :=
  ⟨v.x * Real.cos t - v.y * Real.sin t, v.x * Real.sin t + v.y * Real.cos t, v.z⟩

/-- The axis–angle rotation matrix applied to `v` (Rodrigues formula) for a
unit axis `k`; this is the matrix `mathutils.Matrix.Rotation(t, 4, k)`. -/
def rodrigues (t : ℝ) (k v : Vec3) : Vec3 :=
  Real.cos t • v + Real.sin t • cross k v + ((1 - Real.cos t) * dot k v) • k

/-- Models `Matrix.Rotation(t, 4, axis)` applied to `v`: Blender normalizes the
axis internally and degenerates to the identity matrix on a zero axis. -/
def axisRot (t : ℝ) (axis : Vec3) (v : Vec3) : Vec3 :=
  if normSq axis = 0 then v else rodrigues t (normalize axis) v

/-- The in-place update `vert.co -= position; vert.co = R @ vert.co;
vert.co += position` performed on every vertex at the end of
`draw_lsystem`, where `position` is the cursor value at that point. -/
def twistAbout (t : ℝ) (P : Vec3) (v : Vec3) : Vec3 :=
  axisRot t (normalize P) (v - P) + P

/-- Turtle state during the symbol walk of `draw_lsystem`: the cursor
`pos` (the mutated `position` variable), the heading `dir`, and the
ordered list of emitted vertex positions (`vert_list`). -/
structure WalkState where
  pos : Vec3
  dir : Vec3
  verts : List Vec3

/-- One symbol of the walk: `F` advances the cursor by `dist` along the
heading and emits a vertex; `+`/`-` rotate the heading about Z by
`±angle` degrees; every other symbol is inert. -/
def walkStep (angle dist : ℝ) (st : WalkState) (c : Char) : WalkState :=
  if c = 'F' then
    { pos := st.pos + dist • st.dir, dir := st.dir,
      verts := st.verts ++ [st.pos + dist • st.dir] }
  else if c = '+' then
    { st with dir := rotZ (rad angle) st.dir }
  else if c = '-' then
    { st with dir := rotZ (-(rad angle)) st.dir }
  else st

/-- The full walk over a symbol string, from `position` with the initial
heading `(0, 1, 0)`. -/
def walk (position : Vec3) (angle dist : ℝ) (s : List Char) : WalkState :=
  s.foldl (walkStep angle dist) ⟨position, ⟨0, 1, 0⟩, []⟩

/-- The mesh-building buffer (`bmesh`): vertex coordinates in insertion
order, faces as lists of vertex indices, and a count of
`draw_lsystem` invocations (for stating the invocation-count property). -/
structure Buffer where
  verts : List Vec3
  faces : List (List ℕ)
  calls : ℕ

/-- Source function `draw_lsystem(bm, position, axiom, rules, iterations, angle, distance,
rotation_angle)`: expands the grammar, walks it emitting vertices, and —
only when more than 2 vertices were emitted — attempts one face from all
emitted vertices in order (`bm.faces.new(vert_list)`, whose possible
`ValueError` rejection is abstracted by the `accept` predicate and caught
by the source's `try/except`), then twists every emitted vertex about
`position.normalized()` — `position` being the walk's final cursor, not
the starting point.  With 2 or fewer vertices the emitted vertices stay in
the buffer untouched and no face is attempted. -/
def draw_lsystem (accept : List ℕ → Bool) (bm : Buffer) (position : Vec3)
    (seed : List Char) (rules : Char → Option (List Char)) (iterations : ℕ)
    (angle dist rotation_angle : ℝ) : Buffer :=
  let w := walk position angle dist (expandN rules iterations seed)
  if 2 < w.verts.length then
    let idxs := List.range' bm.verts.length w.verts.length
    { verts := bm.verts ++ w.verts.map (twistAbout (rad rotation_angle) w.pos),
      faces := if accept idxs then bm.faces ++ [idxs] else bm.faces,
      calls := bm.calls + 1 }
  else
    { verts := bm.verts ++ w.verts, faces := bm.faces, calls := bm.calls + 1 }

/-- The fixed axiom string `"F++F++F"` passed to `draw_lsystem`. -/
def kochSeed : List Char := "F++F++F".toList

/-- The fixed rule set `{"F": "F-F++F-F"}` passed to `draw_lsystem`. -/
def kochRules : Char → Option (List Char) :=
  fun c => if c = 'F' then some "F-F++F-F".toList else none

/-- C2 counterexample: one simultaneous rewriting round of the fixed
grammar does NOT yield 22 symbols. -/
theorem koch_one_iteration_length_ne_22 :
    (expandN kochRules 1 kochSeed).length ≠ 22 := by decide

/-- C2 (amended): the rule replacement `"F-F++F-F"` has 8 symbols, so one
rewriting round of the axiom `"F++F++F"` (3 `F`s, 4 `+`s) yields exactly
3·8 + 4 = 28 symbols. -/
theorem koch_one_iteration_length_eq_28 :
    (expandN kochRules 1 kochSeed).length = 28 := by decide

/-- A rotation about a unit axis preserves the squared norm. -/
theorem rodrigues_normSq (t : ℝ) (k v : Vec3) (hk : normSq k = 1) :
    normSq (rodrigues t k v) = normSq v := by
  rcases k with ⟨k1, k2, k3⟩; rcases v with ⟨v1, v2, v3⟩
  simp only [rodrigues, cross, dot, normSq, Vec3.smul_def, Vec3.add_def] at hk ⊢
  have hsc : Real.sin t ^ 2 + Real.cos t ^ 2 = 1 := Real.sin_sq_add_cos_sq t
  linear_combination
    ((v1 * v1 + v2 * v2 + v3 * v3) - (k1 * v1 + k2 * v2 + k3 * v3) ^ 2) * hsc +
    (Real.sin t ^ 2 * (v1 * v1 + v2 * v2 + v3 * v3) +
      (1 - Real.cos t) ^ 2 * (k1 * v1 + k2 * v2 + k3 * v3) ^ 2) * hk

theorem Vec3.add_sub_cancel_right (a b : Vec3) : a + b - b = a := by
  rcases a with ⟨ax, ay, az⟩; rcases b with ⟨bx, by_, bz⟩
  simp only [Vec3.add_def, Vec3.sub_def, Vec3.ext_iff]
  refine ⟨by ring, by ring, by ring⟩

/-- The end-of-call twist preserves every point's distance from its pivot
`P` (the final cursor position), provided `P` is non-zero. -/
theorem twistAbout_dist (t : ℝ) (P : Vec3) (hP : P ≠ 0) (u : Vec3) :
    normSq (twistAbout t P u - P) = normSq (u - P) := by
  have h1 : normSq (normalize P) = 1 := normSq_normalize hP
  have hne : normSq (normalize P) ≠ 0 := by rw [h1]; norm_num
  have h2 : normalize P ≠ 0 := by
    intro h
    rw [h, normSq_zero] at h1
    norm_num at h1
  have h3 : normSq (normalize (normalize P)) = 1 := normSq_normalize h2
  rw [twistAbout, axisRot, if_neg hne, Vec3.add_sub_cancel_right]
  exact rodrigues_normSq t _ _ h3

/-- C1 (amended): when more than two vertices were emitted and the final
cursor position `P` of the walk is non-zero, every emitted vertex is
mapped to `rotate(vertex - P) + P` with rotation axis `normalize P` —
where `P` is the final cursor position, not the `position` argument the
call started from (the two coincide only when the turtle path closes) —
and the twist leaves every point's distance from `P` unchanged. -/
theorem draw_lsystem_twist_pivots_at_final_cursor
    (accept : List ℕ → Bool) (bm : Buffer) (position : Vec3) (seed : List Char)
    (rules : Char → Option (List Char)) (iterations : ℕ)
    (angle dist rotation_angle : ℝ)
    (h2 : 2 < (walk position angle dist (expandN rules iterations seed)).verts.length)
    (hP : (walk position angle dist (expandN rules iterations seed)).pos ≠ 0) :
    (draw_lsystem accept bm position seed rules iterations angle dist rotation_angle).verts =
      bm.verts ++ (walk position angle dist (expandN rules iterations seed)).verts.map
        (twistAbout (rad rotation_angle)
          (walk position angle dist (expandN rules iterations seed)).pos) ∧
    ∀ u : Vec3,
      normSq (twistAbout (rad rotation_angle)
          (walk position angle dist (expandN rules iterations seed)).pos u -
        (walk position angle dist (expandN rules iterations seed)).pos) =
      normSq (u - (walk position angle dist (expandN rules iterations seed)).pos) := by
  constructor
  · simp only [draw_lsystem]
    rw [if_pos h2]
  · intro u
    exact twistAbout_dist _ _ hP u

theorem walkStep_F (angle dist : ℝ) (st : WalkState) :
    walkStep angle dist st 'F' =
      { pos := st.pos + dist • st.dir, dir := st.dir,
        verts := st.verts ++ [st.pos + dist • st.dir] } := by
  rw [walkStep, if_pos rfl]

theorem walkStep_plus (angle dist : ℝ) (st : WalkState) :
    walkStep angle dist st '+' = { st with dir := rotZ (rad angle) st.dir } := by
  rw [walkStep, if_neg (by decide), if_pos rfl]

theorem walkStep_minus (angle dist : ℝ) (st : WalkState) :
    walkStep angle dist st '-' = { st with dir := rotZ (-(rad angle)) st.dir } := by
  rw [walkStep, if_neg (by decide), if_neg (by decide), if_pos rfl]

theorem rad_90 : rad 90 = Real.pi / 2 := by
  rw [rad]; ring

theorem cos_rad_90 : Real.cos (rad 90) = 0 := by
  rw [rad_90, Real.cos_pi_div_two]

theorem sin_rad_90 : Real.sin (rad 90) = 1 := by
  rw [rad_90, Real.sin_pi_div_two]

/-- Evaluation of the walk on `"F+F+F"` with a 90° turn, step 1, from
`(1,0,3)`: three vertices are emitted and the cursor ends at `(0,0,3)`. -/
theorem walk_cex_eval :
    walk ⟨1, 0, 3⟩ 90 1 ("F+F+F".toList) =
      ⟨⟨0, 0, 3⟩, ⟨0, -1, 0⟩, [⟨1, 1, 3⟩, ⟨0, 1, 3⟩, ⟨0, 0, 3⟩]⟩ := by
  have hl : "F+F+F".toList = ['F', '+', 'F', '+', 'F'] := rfl
  rw [hl, walk]
  simp only [List.foldl_cons, List.foldl_nil, walkStep_F, walkStep_plus, rotZ,
    cos_rad_90, sin_rad_90, Vec3.smul_def, Vec3.add_def]
  norm_num [WalkState.mk.injEq, Vec3.ext_iff]

theorem sqrt_nine : Real.sqrt 9 = 3 := by
  rw [show (9 : ℝ) = 3 ^ 2 by norm_num, Real.sqrt_sq (by norm_num : (0:ℝ) ≤ 3)]

theorem normalize_003 : normalize ⟨0, 0, 3⟩ = ⟨0, 0, 1⟩ := by
  have hlen : len (⟨0, 0, 3⟩ : Vec3) = 3 := by
    rw [len, show normSq (⟨0, 0, 3⟩ : Vec3) = 9 by simp [normSq, dot]; norm_num, sqrt_nine]
  rw [normalize, if_neg (by rw [hlen]; norm_num), hlen, Vec3.smul_def, Vec3.ext_iff]
  norm_num

theorem normalize_001 : normalize ⟨0, 0, 1⟩ = ⟨0, 0, 1⟩ := by
  have hlen : len (⟨0, 0, 1⟩ : Vec3) = 1 := by
    rw [len, show normSq (⟨0, 0, 1⟩ : Vec3) = 1 by simp [normSq, dot], Real.sqrt_one]
  rw [normalize, if_neg (by rw [hlen]; norm_num), hlen, Vec3.smul_def, Vec3.ext_iff]
  norm_num

/-- The twist of the concrete call maps the first emitted vertex
`(1,1,3)` to `(-1,1,3)`: it rotates about the Z axis through the *final
cursor* `(0,0,3)`, not about the call's `position` argument `(1,0,3)`. -/
theorem twist_cex_first :
    twistAbout (rad 90) ⟨0, 0, 3⟩ ⟨1, 1, 3⟩ = ⟨-1, 1, 3⟩ := by
  rw [twistAbout, normalize_003, axisRot,
    if_neg (by simp [normSq, dot] : ¬normSq (⟨0, 0, 1⟩ : Vec3) = 0), normalize_001]
  simp only [rodrigues, cross, dot, cos_rad_90, sin_rad_90, Vec3.smul_def, Vec3.add_def,
    Vec3.sub_def, Vec3.ext_iff]
  norm_num

/-- C1 counterexample: calling
`draw_lsystem(bm, (1,0,3), "F+F+F", {}, 0, 90, 1, 90)` emits raw vertices
`(1,1,3), (0,1,3), (0,0,3)`; the first raw vertex sits at squared
distance 1 from the call's `position` argument `(1,0,3)`, but after the
final twist it ends at `(-1,1,3)`, at squared distance 5 — the twist does
NOT pivot around the curve's anchor point and does NOT preserve distances
from it (it pivots around the walk's final cursor `(0,0,3)` instead). -/
theorem twist_not_anchored_at_origin_cex :
    (draw_lsystem (fun _ => true) ⟨[], [], 0⟩ ⟨1, 0, 3⟩ ("F+F+F".toList)
        (fun _ => none) 0 90 1 90).verts.head? = some ⟨-1, 1, 3⟩ ∧
    (walk ⟨1, 0, 3⟩ 90 1 ("F+F+F".toList)).verts.head? = some ⟨1, 1, 3⟩ ∧
    normSq ((⟨-1, 1, 3⟩ : Vec3) - ⟨1, 0, 3⟩) ≠ normSq ((⟨1, 1, 3⟩ : Vec3) - ⟨1, 0, 3⟩) := by
  refine ⟨?_, ?_, ?_⟩
  · show (draw_lsystem (fun _ => true) ⟨[], [], 0⟩ ⟨1, 0, 3⟩ ("F+F+F".toList)
        (fun _ => none) 0 90 1 90).verts.head? = some ⟨-1, 1, 3⟩
    have he : expandN (fun _ => none) 0 ("F+F+F".toList) = "F+F+F".toList := rfl
    simp only [draw_lsystem, he, walk_cex_eval]
    norm_num [twist_cex_first]
  · rw [walk_cex_eval]
    rfl
  · simp only [normSq, dot, Vec3.sub_def]
    norm_num

/-- Witness for the amended C1 theorem at the concrete input of the
counterexample: 3 vertices are emitted and the final cursor is non-zero. -/
theorem draw_lsystem_twist_pivots_witness :
    (2 < (walk ⟨1, 0, 3⟩ 90 1 (expandN (fun _ => none) 0 ("F+F+F".toList))).verts.length ∧
      (walk ⟨1, 0, 3⟩ 90 1 (expandN (fun _ => none) 0 ("F+F+F".toList))).pos ≠ 0) ∧
    ((draw_lsystem (fun _ => true) ⟨[], [], 0⟩ ⟨1, 0, 3⟩ ("F+F+F".toList)
        (fun _ => none) 0 90 1 90).verts =
      (Buffer.mk [] [] 0).verts ++
        (walk ⟨1, 0, 3⟩ 90 1 (expandN (fun _ => none) 0 ("F+F+F".toList))).verts.map
          (twistAbout (rad 90)
            (walk ⟨1, 0, 3⟩ 90 1 (expandN (fun _ => none) 0 ("F+F+F".toList))).pos) ∧
     ∀ u : Vec3,
       normSq (twistAbout (rad 90)
           (walk ⟨1, 0, 3⟩ 90 1 (expandN (fun _ => none) 0 ("F+F+F".toList))).pos u -
         (walk ⟨1, 0, 3⟩ 90 1 (expandN (fun _ => none) 0 ("F+F+F".toList))).pos) =
       normSq (u - (walk ⟨1, 0, 3⟩ 90 1 (expandN (fun _ => none) 0 ("F+F+F".toList))).pos)) := by
  have h2 : 2 < (walk ⟨1, 0, 3⟩ 90 1
      (expandN (fun _ => none) 0 ("F+F+F".toList))).verts.length := by
    show 2 < (walk ⟨1, 0, 3⟩ 90 1 ("F+F+F".toList)).verts.length
    rw [walk_cex_eval]
    norm_num
  have hP : (walk ⟨1, 0, 3⟩ 90 1
      (expandN (fun _ => none) 0 ("F+F+F".toList))).pos ≠ 0 := by
    show (walk ⟨1, 0, 3⟩ 90 1 ("F+F+F".toList)).pos ≠ 0
    rw [walk_cex_eval]
    intro h
    have := congrArg Vec3.z h
    rw [Vec3.zero_def] at this
    norm_num at this
  exact ⟨⟨h2, hP⟩, draw_lsystem_twist_pivots_at_final_cursor (fun _ => true)
    ⟨[], [], 0⟩ ⟨1, 0, 3⟩ ("F+F+F".toList) (fun _ => none) 0 90 1 90 h2 hP⟩

/-- C9: whenever more than two vertices were emitted, exactly one face
from all emitted vertices in emission order is proposed to the backend;
whether or not the backend accepts it, all emitted vertices stay in the
buffer (as loose points on rejection), the face list grows by at most
one, and on rejection it is unchanged — the call always returns normally
with the same vertex set. -/
theorem draw_lsystem_face_attempt_and_recovery
    (accept : List ℕ → Bool) (bm : Buffer) (position : Vec3) (seed : List Char)
    (rules : Char → Option (List Char)) (iterations : ℕ)
    (angle dist rotation_angle : ℝ)
    (h2 : 2 < (walk position angle dist (expandN rules iterations seed)).verts.length) :
    (draw_lsystem accept bm position seed rules iterations angle dist rotation_angle).verts.length =
      bm.verts.length + (walk position angle dist (expandN rules iterations seed)).verts.length ∧
    (draw_lsystem accept bm position seed rules iterations angle dist rotation_angle).faces =
      (if accept (List.range' bm.verts.length
            (walk position angle dist (expandN rules iterations seed)).verts.length)
       then bm.faces ++ [List.range' bm.verts.length
            (walk position angle dist (expandN rules iterations seed)).verts.length]
       else bm.faces) ∧
    (draw_lsystem accept bm position seed rules iterations angle dist rotation_angle).faces.length ≤
      bm.faces.length + 1 := by
  simp only [draw_lsystem]
  rw [if_pos h2]
  refine ⟨by simp, rfl, ?_⟩
  split <;> simp

/-- Evaluation of the walk on `"FFF"` (no turn symbols, step 1): three
collinear vertices. -/
theorem walk_fff_eval :
    walk ⟨0, 0, 1⟩ 0 1 ("FFF".toList) =
      ⟨⟨0, 3, 1⟩, ⟨0, 1, 0⟩, [⟨0, 1, 1⟩, ⟨0, 2, 1⟩, ⟨0, 3, 1⟩]⟩ := by
  have hl : "FFF".toList = ['F', 'F', 'F'] := rfl
  rw [hl, walk]
  simp only [List.foldl_cons, List.foldl_nil, walkStep_F, Vec3.smul_def, Vec3.add_def]
  norm_num [WalkState.mk.injEq, Vec3.ext_iff]

/-- Witness for C9 at a concrete call with a rejecting backend: the walk
on `"FFF"` emits 3 (collinear, hence rejectable) vertices; they stay in
the buffer and no face is recorded. -/
theorem draw_lsystem_face_attempt_and_recovery_witness :
    2 < (walk ⟨0, 0, 1⟩ 0 1 (expandN (fun _ => none) 0 ("FFF".toList))).verts.length ∧
    ((draw_lsystem (fun _ => false) ⟨[], [], 0⟩ ⟨0, 0, 1⟩ ("FFF".toList)
        (fun _ => none) 0 0 1 0).verts.length =
      (Buffer.mk [] [] 0).verts.length +
        (walk ⟨0, 0, 1⟩ 0 1 (expandN (fun _ => none) 0 ("FFF".toList))).verts.length ∧
     (draw_lsystem (fun _ => false) ⟨[], [], 0⟩ ⟨0, 0, 1⟩ ("FFF".toList)
        (fun _ => none) 0 0 1 0).faces =
      (if (fun _ => false : List ℕ → Bool) (List.range' (Buffer.mk [] [] 0).verts.length
            (walk ⟨0, 0, 1⟩ 0 1 (expandN (fun _ => none) 0 ("FFF".toList))).verts.length)
       then (Buffer.mk [] [] 0).faces ++ [List.range' (Buffer.mk [] [] 0).verts.length
            (walk ⟨0, 0, 1⟩ 0 1 (expandN (fun _ => none) 0 ("FFF".toList))).verts.length]
       else (Buffer.mk [] [] 0).faces) ∧
     (draw_lsystem (fun _ => false) ⟨[], [], 0⟩ ⟨0, 0, 1⟩ ("FFF".toList)
        (fun _ => none) 0 0 1 0).faces.length ≤ (Buffer.mk [] [] 0).faces.length + 1) := by
  have h2 : 2 < (walk ⟨0, 0, 1⟩ 0 1
      (expandN (fun _ => none) 0 ("FFF".toList))).verts.length := by
    show 2 < (walk ⟨0, 0, 1⟩ 0 1 ("FFF".toList)).verts.length
    rw [walk_fff_eval]
    norm_num
  exact ⟨h2, draw_lsystem_face_attempt_and_recovery (fun _ => false) ⟨[], [], 0⟩
    ⟨0, 0, 1⟩ ("FFF".toList) (fun _ => none) 0 0 1 0 h2⟩

/-! ## The phyllotaxis placement engine (`PhyllotaxisFlower.geometry`) -/

/-- Source constant `GOLDEN_ANGLE = pi * (3 - sqrt(5))` (radians). -/
def GOLDEN_ANGLE : ℝ := Real.pi * (3 - Real.sqrt 5)

/-- The configuration constants set in `PhyllotaxisFlower.__init__`:
`n` flowers, `m` petals per flower, cone base radius `r0`, inter-petal
radius `r1`, petal size `r2` (unused), cone height `h0`, flower distance
`h1`. -/
structure Config where
  n : ℕ
  m : ℕ
  r0 : ℝ
  r1 : ℝ
  r2 : ℝ
  h0 : ℝ
  h1 : ℝ

/-- The source's values: `n, m = 200, 10`; `r0, r1, r2 = 10, 10, 1`;
`h0, h1 = 50, 2`. -/
def defaultConfig : Config := ⟨200, 10, 10, 10, 1, 50, 2⟩

/-- Source line `t0 = i / self.n`. -/
def t0v (cfg : Config) (i : ℕ) : ℝ := (i : ℝ) / (cfg.n : ℝ)

/-- Source line `r0 = t0 * self.r0` (the flower's radial distance). -/
def r0v (cfg : Config) (i : ℕ) : ℝ := t0v cfg i * cfg.r0

/-- Source line `theta = i * GOLDEN_ANGLE` (also reused as `j * GOLDEN_ANGLE` in the
petal loop). -/
def theta0 (i : ℕ) : ℝ := (i : ℝ) * GOLDEN_ANGLE

/-- The flower anchor `p0`: `x = r0*cos(theta)`, `y = r0*sin(theta)`,
`z = self.h0 / 2 - (self.h0 / (self.r0 * self.r0)) * r0 * r0`. -/
def p0 (cfg : Config) (i : ℕ) : Vec3 :=
  ⟨r0v cfg i * Real.cos (theta0 i), r0v cfg i * Real.sin (theta0 i),
   cfg.h0 / 2 - cfg.h0 / (cfg.r0 * cfg.r0) * r0v cfg i * r0v cfg i⟩

/-- Source line `t1 = j / self.m`. -/
def t1v (cfg : Config) (j : ℕ) : ℝ := (j : ℝ) / (cfg.m : ℝ)

/-- Source line `t2 = 0.4 + 0.6 * t0` (the per-flower radial taper). -/
def t2v (cfg : Config) (i : ℕ) : ℝ := 0.4 + 0.6 * t0v cfg i

/-- Source line `r1 = t2 * t1 * self.r1` (the petal's local radial distance). -/
def r1v (cfg : Config) (i j : ℕ) : ℝ := t2v cfg i * t1v cfg j * cfg.r1

/-- The local petal position `p1`: `x = r1*cos(theta)`,
`y = r1*sin(theta)`,
`z = self.h1 - (self.h1 / (self.r1 * self.r1)) * r1 * r1` — note: `h1`,
not `h1 / 2`. -/
def p1 (cfg : Config) (i j : ℕ) : Vec3 :=
  ⟨r1v cfg i j * Real.cos (theta0 j), r1v cfg i j * Real.sin (theta0 j),
   cfg.h1 - cfg.h1 / (cfg.r1 * cfg.r1) * r1v cfg i j * r1v cfg i j⟩

/-- Models `Matrix([T, B, N]).to_4x4().transposed() @ v`: the matrix whose
columns are `T`, `B`, `N` applied to `v`. -/
def frameApply (T B N v : Vec3) : Vec3 := v.x • T + v.y • B + v.z • N

/-- The world petal anchor `p = p0 + (M0 @ p1)`, with `M0` built from the
frame of `p0` in row order `[T0, B0, N0]` then transposed.  (The source
also computes the frame `M1` of `p1`, which is never used.) -/
def worldPetal (cfg : Config) (i j : ℕ) : Vec3 :=
  p0 cfg i +
    frameApply (getTNBfromVector (p0 cfg i)).1 (getTNBfromVector (p0 cfg i)).2.2
      (getTNBfromVector (p0 cfg i)).2.1 (p1 cfg i j)

/-- Source line `rotation_angle = degrees(atan2(p.y, p.x)) - 45`. -/
def rotationAngleOf (cfg : Config) (i j : ℕ) : ℝ :=
  degOf (atan2 (worldPetal cfg i j).y (worldPetal cfg i j).x) - 45

open scoped Classical

/-- The body of the petal loop for flower `i`, petal `j`.  Python raises
`ZeroDivisionError` at the `z` computation of `p1` when `self.r1 == 0`
(before the emitter is invoked); otherwise it calls
`draw_lsystem(bm, p, "F++F++F", {"F": "F-F++F-F"}, 4, 60, 0.05,
rotation_angle)`. -/
def petalBody (cfg : Config) (accept : List ℕ → Bool) (i : ℕ) (bm : Buffer)
    (j : ℕ) : Except String Buffer :=
  if cfg.r1 = 0 then Except.error "ZeroDivisionError"
  else Except.ok (draw_lsystem accept bm (worldPetal cfg i j) kochSeed kochRules 4 60 0.05
    (rotationAngleOf cfg i j))

/-- The body of the flower loop for flower `i`.  Python raises
`ZeroDivisionError` at the `z` computation of `p0` when `self.r0 == 0`
(before any petal is drawn); otherwise it runs the petal loop
`for j in range(self.m)`. -/
def flowerBody (cfg : Config) (accept : List ℕ → Bool) (bm : Buffer)
    (i : ℕ) : Except String Buffer :=
  if cfg.r0 = 0 then Except.error "ZeroDivisionError"
  else List.foldlM (petalBody cfg accept i) bm (List.range cfg.m)

/-- Source method `PhyllotaxisFlower.geometry`: a fresh buffer, then the flower loop
`for i in range(self.n)`.  A `ZeroDivisionError` propagates out, so no
mesh is produced in that case. -/
def geometry (cfg : Config) (accept : List ℕ → Bool) : Except String Buffer :=
  List.foldlM (flowerBody cfg accept) ⟨[], [], 0⟩ (List.range cfg.n)

/-- C5: the flower anchor obeys
`p0 = (r0·cos θ, r0·sin θ, h0/2 − (h0/r0²)·r0²)` with
`r0 = (i/flowerCount)·baseConeRadius` and `θ = i·GOLDEN_ANGLE`;
consecutive flower angular positions differ by exactly `GOLDEN_ANGLE`,
and `GOLDEN_ANGLE = π(3−√5)`. -/
theorem flower_anchor_formula_and_golden_spacing (cfg : Config) (i : ℕ) :
    p0 cfg i = ⟨(i : ℝ) / cfg.n * cfg.r0 * Real.cos ((i : ℝ) * GOLDEN_ANGLE),
      (i : ℝ) / cfg.n * cfg.r0 * Real.sin ((i : ℝ) * GOLDEN_ANGLE),
      cfg.h0 / 2 - cfg.h0 / (cfg.r0 * cfg.r0) * ((i : ℝ) / cfg.n * cfg.r0) ^ 2⟩ ∧
    theta0 (i + 1) - theta0 i = GOLDEN_ANGLE ∧
    GOLDEN_ANGLE = Real.pi * (3 - Real.sqrt 5) := by
  refine ⟨?_, ?_, rfl⟩
  · rw [p0, r0v, t0v, theta0, Vec3.ext_iff]
    refine ⟨rfl, rfl, by ring⟩
  · rw [theta0, theta0]
    push_cast
    ring

/-- C3 counterexample: for flower 0, petal 0 under the source's
configuration (`flowerDistance = h1 = 2`, `interPetalRadius = r1 = 10`),
the code computes `p1.z = 2` (that is, `h1 - ...`), whereas the claimed
formula `flowerDistance/2 − (flowerDistance/interPetalRadius²)·r1²`
predicts `1`. -/
theorem petal_z_not_half_flowerDistance_cex :
    (p1 defaultConfig 0 0).z = 2 ∧
    (2 : ℝ) ≠ defaultConfig.h1 / 2 - defaultConfig.h1 / (defaultConfig.r1 * defaultConfig.r1) *
      ((0.4 + 0.6 * ((0 : ℝ) / defaultConfig.n)) * ((0 : ℝ) / defaultConfig.m) *
        defaultConfig.r1) ^ 2 := by
  constructor
  · norm_num [p1, r1v, t1v, t2v, t0v, defaultConfig]
  · norm_num [defaultConfig]

/-- C3 (amended): the local petal z-coordinate equals
`flowerDistance − (flowerDistance/interPetalRadius²)·r1²` (the full
`flowerDistance` as the constant term, not `flowerDistance/2` — the petal
formula does not halve the height the way the flower-anchor formula
does), with `r1 = (0.4 + 0.6·(i/flowerCount))·(j/petalsPerFlower)·
interPetalRadius`. -/
theorem petal_z_formula (cfg : Config) (i j : ℕ) :
    (p1 cfg i j).z = cfg.h1 - cfg.h1 / (cfg.r1 * cfg.r1) *
      ((0.4 + 0.6 * ((i : ℝ) / cfg.n)) * ((j : ℝ) / cfg.m) * cfg.r1) ^ 2 := by
  rw [p1]
  show cfg.h1 - cfg.h1 / (cfg.r1 * cfg.r1) * r1v cfg i j * r1v cfg i j = _
  rw [r1v, t1v, t2v, t0v]
  ring

/-- C4 counterexample: with `flowerCount = 0` the flower loop body never
runs, so generation raises no error at all — it completes and returns an
empty buffer (the claim says an error must be raised). -/
theorem geometry_zero_flowerCount_no_error_cex :
    geometry { defaultConfig with n := 0 } (fun _ => true) = Except.ok ⟨[], [], 0⟩ := by
  rw [geometry]
  have hn : ({ defaultConfig with n := 0 } : Config).n = 0 := rfl
  rw [hn, List.range_zero, List.foldlM_nil]
  rfl

/-- C4 (amended): there is no configuration validation.  With
`baseConeRadius = 0` (and the other defaults) the very first flower's
`z` computation divides by zero, so generation aborts with a
`ZeroDivisionError` before any vertex or face is added and no mesh is
produced; with `flowerCount = 0` no error is raised at all and generation
returns an empty mesh. -/
theorem geometry_zero_config_behavior :
    (∀ accept : List ℕ → Bool,
      geometry { defaultConfig with r0 := 0 } accept = Except.error "ZeroDivisionError") ∧
    (∀ accept : List ℕ → Bool,
      geometry { defaultConfig with n := 0 } accept = Except.ok ⟨[], [], 0⟩) := by
  constructor
  · intro accept
    rw [geometry]
    have hn : ({ defaultConfig with r0 := 0 } : Config).n = 199 + 1 := rfl
    rw [hn, List.range_succ_eq_map, List.foldlM_cons]
    have hr0 : ({ defaultConfig with r0 := 0 } : Config).r0 = 0 := rfl
    rw [flowerBody, if_pos hr0]
    rfl
  · intro accept
    rw [geometry]
    have hn : ({ defaultConfig with n := 0 } : Config).n = 0 := rfl
    rw [hn, List.range_zero, List.foldlM_nil]
    rfl

theorem draw_lsystem_calls (accept : List ℕ → Bool) (bm : Buffer) (position : Vec3)
    (seed : List Char) (rules : Char → Option (List Char)) (iterations : ℕ)
    (angle dist rotation_angle : ℝ) :
    (draw_lsystem accept bm position seed rules iterations angle dist rotation_angle).calls =
      bm.calls + 1 := by
  simp only [draw_lsystem]
  split <;> rfl

theorem draw_lsystem_faces_le (accept : List ℕ → Bool) (bm : Buffer) (position : Vec3)
    (seed : List Char) (rules : Char → Option (List Char)) (iterations : ℕ)
    (angle dist rotation_angle : ℝ) :
    (draw_lsystem accept bm position seed rules iterations angle dist rotation_angle).faces.length ≤
      bm.faces.length + 1 := by
  simp only [draw_lsystem]
  split
  · split <;> simp
  · simp

/-- Running the petal loop over any index list succeeds when
`interPetalRadius ≠ 0`, makes one emitter invocation per petal, and adds
at most one face per petal. -/
theorem petalFold (cfg : Config) (accept : List ℕ → Bool) (i : ℕ) (hr1 : cfg.r1 ≠ 0) :
    ∀ (l : List ℕ) (bm : Buffer), ∃ b : Buffer,
      List.foldlM (petalBody cfg accept i) bm l = Except.ok b ∧
      b.calls = bm.calls + l.length ∧
      b.faces.length ≤ bm.faces.length + l.length := by
  intro l
  induction l with
  | nil =>
    intro bm
    refine ⟨bm, ?_, by simp, by simp⟩
    rw [List.foldlM_nil]
    rfl
  | cons a l ih =>
    intro bm
    obtain ⟨b, hb, hc, hf⟩ := ih (draw_lsystem accept bm (worldPetal cfg i a) kochSeed
      kochRules 4 60 0.05 (rotationAngleOf cfg i a))
    refine ⟨b, ?_, ?_, ?_⟩
    · rw [List.foldlM_cons, petalBody, if_neg hr1]
      exact hb
    · rw [hc, draw_lsystem_calls, List.length_cons]
      omega
    · calc b.faces.length ≤ (draw_lsystem accept bm (worldPetal cfg i a) kochSeed kochRules 4
          60 0.05 (rotationAngleOf cfg i a)).faces.length + l.length := hf
        _ ≤ (bm.faces.length + 1) + l.length :=
          Nat.add_le_add_right (draw_lsystem_faces_le _ _ _ _ _ _ _ _ _) _
        _ = bm.faces.length + (a :: l).length := by rw [List.length_cons]; ring

/-- Running the flower loop over any index list succeeds when both radii
are non-zero, making `petalsPerFlower` emitter invocations per flower. -/
theorem flowerFold (cfg : Config) (accept : List ℕ → Bool) (hr0 : cfg.r0 ≠ 0)
    (hr1 : cfg.r1 ≠ 0) :
    ∀ (l : List ℕ) (bm : Buffer), ∃ b : Buffer,
      List.foldlM (flowerBody cfg accept) bm l = Except.ok b ∧
      b.calls = bm.calls + l.length * cfg.m ∧
      b.faces.length ≤ bm.faces.length + l.length * cfg.m := by
  intro l
  induction l with
  | nil =>
    intro bm
    refine ⟨bm, ?_, by simp, by simp⟩
    rw [List.foldlM_nil]
    rfl
  | cons a l ih =>
    intro bm
    obtain ⟨b1, hb1, hc1, hf1⟩ := petalFold cfg accept a hr1 (List.range cfg.m) bm
    obtain ⟨b, hb, hc, hf⟩ := ih b1
    refine ⟨b, ?_, ?_, ?_⟩
    · rw [List.foldlM_cons, flowerBody, if_neg hr0, hb1]
      exact hb
    · rw [hc, hc1, List.length_range, List.length_cons, Nat.succ_mul]
      ring
    · rw [List.length_range] at hf1
      calc b.faces.length ≤ b1.faces.length + l.length * cfg.m := hf
        _ ≤ (bm.faces.length + cfg.m) + l.length * cfg.m := Nat.add_le_add_right hf1 _
        _ = bm.faces.length + (a :: l).length * cfg.m := by
            rw [List.length_cons, Nat.succ_mul]; ring

/-- C8: under the source configuration (`flowerCount = 200`,
`petalsPerFlower = 10`) generation succeeds for every backend behavior,
invokes `draw_lsystem` exactly 2000 times, and the buffer holds at most
2000 faces (each invocation adds at most one face; fewer only when the
backend rejects a face). -/
theorem geometry_default_invocations_and_faces (accept : List ℕ → Bool) :
    ∃ b : Buffer, geometry defaultConfig accept = Except.ok b ∧
      b.calls = 2000 ∧ b.faces.length ≤ 2000 := by
  have hr0 : defaultConfig.r0 ≠ 0 := by
    rw [show defaultConfig.r0 = 10 from rfl]
    norm_num
  have hr1 : defaultConfig.r1 ≠ 0 := by
    rw [show defaultConfig.r1 = 10 from rfl]
    norm_num
  obtain ⟨b, hb, hc, hf⟩ := flowerFold defaultConfig accept hr0 hr1
    (List.range defaultConfig.n) ⟨[], [], 0⟩
  refine ⟨b, ?_, ?_, ?_⟩
  · rw [geometry]
    exact hb
  · rw [hc, List.length_range]
    rfl
  · rw [List.length_range] at hf
    exact hf.trans (by decide)

end

end FurryBomb
